import Mathlib

/-!
# Verification of the mbed-drivers asynchronous I2C core

A shallow embedding of the I2C transaction engine of `bremoran/mbed-drivers`,
together with proofs about its behaviour.  The embedding follows the v1
generation of the driver (`source/v1/I2C.cpp`, `source/v1/I2CDetail.cpp`,
`mbed-drivers/v1/I2C.hpp`, `mbed-drivers/v1/I2CDetail.hpp`), which is the
canonical iteration of the design; the older generation
(`source/I2C.cpp`, `source/I2CDetail.cpp`, `mbed-drivers/I2C.h`) is embedded
where it is the only implementation present (`I2CBuffer::set`).

Pointer-linked structures are embedded as lists: a transaction's segment
chain `_root`/`_next` becomes `List I2CSegment` and the `_current` cursor
becomes the suffix of that list starting at the pointed-to segment (the empty
list standing for a null cursor).  The resource manager's transaction queue
(head pointer plus the per-transaction `_next` chain) becomes
`List I2CTransaction`.  Pointer identity of heap-allocated transactions is
modelled by an `id` field.  Side effects on the HAL and the scheduler are
made explicit as an action trace (`RMAction`).  Machine integers are `Nat`
with masking where the source relies on wrap-around; the 32-bit complement
`~x` of the C source is rendered as `0xFFFFFFFF ^^^ x`.
-/

namespace Mbed

/-- Modelled from the spec: the HAL event bit constants come from
`mbed-hal/i2c_api.h`, which is outside `src/` (the spec lists the event
classes complete, early-nack, no-slave and generic error as the HAL
contract).  The values are the standard mbed HAL assignments; the
development only relies on the bits being distinct. -/
def I2C_EVENT_ERROR : Nat := 2

/-- Modelled from the spec: HAL event bit, see `I2C_EVENT_ERROR`. -/
def I2C_EVENT_ERROR_NO_SLAVE : Nat := 4

/-- Modelled from the spec: HAL event bit, see `I2C_EVENT_ERROR`. -/
def I2C_EVENT_TRANSFER_COMPLETE : Nat := 8

/-- Modelled from the spec: HAL event bit, see `I2C_EVENT_ERROR`. -/
def I2C_EVENT_TRANSFER_EARLY_NACK : Nat := 16

/-- Modelled from the spec: the full event mask subscribed by the driver. -/
def I2C_EVENT_ALL : Nat :=
  I2C_EVENT_ERROR ||| I2C_EVENT_ERROR_NO_SLAVE |||
  I2C_EVENT_TRANSFER_COMPLETE ||| I2C_EVENT_TRANSFER_EARLY_NACK

/-- The 32-bit complement of `I2C_EVENT_TRANSFER_COMPLETE`, as computed by
`~I2C_EVENT_TRANSFER_COMPLETE` on `uint32_t` in the source. -/
def UINT32_NOT_COMPLETE : Nat := 0xFFFFFFFF ^^^ I2C_EVENT_TRANSFER_COMPLETE

/-- The error bits: error, no-slave and early-nack (everything in
`I2C_EVENT_ALL` except the completion bit). -/
def I2C_ERROR_BITS : Nat :=
  I2C_EVENT_ERROR ||| I2C_EVENT_ERROR_NO_SLAVE ||| I2C_EVENT_TRANSFER_EARLY_NACK

/-- The guard `event & I2C_EVENT_ALL & ~I2C_EVENT_TRANSFER_COMPLETE` of
`I2CResourceManager::process_event` selects exactly the error bits. -/
theorem event_land_not_complete (event : Nat) :
    event &&& I2C_EVENT_ALL &&& UINT32_NOT_COMPLETE = event &&& I2C_ERROR_BITS := by
  rw [Nat.land_assoc]
  have h : I2C_EVENT_ALL &&& UINT32_NOT_COMPLETE = I2C_ERROR_BITS := by decide
  rw [h]

/-- The error enumeration of `mbed-drivers/v1/I2C.hpp`. -/
inductive I2CError
  | None
  | InvalidMaster
  | PinMismatch
  | Busy
  | NullTransaction
  | NullSegment
  | MissingPoolAllocator
  | InvalidAddress
  | BufferSize
deriving DecidableEq, Repr

/-- Byte-addressed memory, used to give meaning to the pointers handed to the
buffer classes.  A pointer is an address (`Nat`); a nullable pointer is an
`Option Nat`. -/
def Mem : Type := Nat → UInt8

/-- Read `len` consecutive bytes starting at address `p`. -/
def readBytes (m : Mem) (p len : Nat) : List UInt8 :=
  (List.range len).map (fun i => m (p + i))

theorem readBytes_length (m : Mem) (p len : Nat) : (readBytes m p len).length = len := by
  simp [readBytes]

/-- The capacity of the inline storage of `EphemeralBuffer` (and of the older
`I2CBuffer`): `sizeof(void*) + sizeof(size_t) - 1` bytes, which is 7 on the
32-bit Cortex-M target ("If the buffer is 7 or fewer bytes, copy it into the
contents of EphemeralBuffer", `mbed-drivers/EphemeralBuffer.hpp`). -/
def INLINE_CAP : Nat := 7

/-- The value returned by `get_buf()`: either a pointer into the object's own
inline storage (whose bytes are given), or the stored external pointer. -/
inductive BufVal
  | inline (bytes : List UInt8)
  | ext (p : Option Nat)
deriving DecidableEq, Repr

/-- Modelled from the spec: the bodies of `EphemeralBuffer`'s methods are not
under `src/` (only the class declaration in `mbed-drivers/EphemeralBuffer.hpp`
is).  The union of the declaration is rendered with one field per member and
an explicit mode flag `ephemeral` (the shared tag bit): `dataPtr`/`ptrLen`
mirror `_dataPtr`/`_ptrLen:31` of the referenced alternative, `data`/`pakLen`
mirror `_data[7]`/`_len:7` of the inline alternative. -/
structure EphemeralBuffer where
  ephemeral : Bool
  dataPtr : Option Nat
  ptrLen : Nat
  data : List UInt8
  pakLen : Nat
deriving DecidableEq, Repr

/-- A default-constructed `EphemeralBuffer` (all storage cleared). -/
def EphemeralBuffer.init : EphemeralBuffer :=
  { ephemeral := false, dataPtr := none, ptrLen := 0, data := [], pakLen := 0 }

/-- Modelled from the spec: `EphemeralBuffer::set(void *buf, size_t len)` is
missing from `src/`.  Spec 4.1: "`set(ptr, len)`: always Ref mode; copies
nothing; length must fit in 31 bits."  The length lands in the 31-bit
bitfield `_ptrLen`, hence the reduction mod `2^31`; no memory is read. -/
def EphemeralBuffer.set (b : EphemeralBuffer) (buf : Option Nat) (len : Nat) :
    EphemeralBuffer :=
  { b with ephemeral := false, dataPtr := buf, ptrLen := len % 2 ^ 31 }

/-- Modelled from the spec: `EphemeralBuffer::set_ephemeral(void *buf, size_t
len)` is missing from `src/`.  Spec 4.1: "Inline mode if `len ≤ INLINE_CAP`;
copies `len` bytes from `ptr` (skipped if `ptr` is null).  Otherwise identical
to `set`."  The length lands in the 7-bit bitfield `_len`. -/
def EphemeralBuffer.set_ephemeral (m : Mem) (b : EphemeralBuffer) (buf : Option Nat)
    (len : Nat) : EphemeralBuffer :=
  if len ≤ INLINE_CAP then
    { b with
      ephemeral := true
      pakLen := len % 2 ^ 7
      data := match buf with
        | some p => readBytes m p len
        | none => b.data }
  else
    b.set buf len

/-- Modelled from the spec: `EphemeralBuffer::get_buf()` is missing from
`src/`.  "returns a pointer to inline bytes or the referenced pointer". -/
def EphemeralBuffer.get_buf (b : EphemeralBuffer) : BufVal :=
  if b.ephemeral then .inline b.data else .ext b.dataPtr

/-- Modelled from the spec: `EphemeralBuffer::get_len()` is missing from
`src/`.  "length in either mode". -/
def EphemeralBuffer.get_len (b : EphemeralBuffer) : Nat :=
  if b.ephemeral then b.pakLen else b.ptrLen

/-- Modelled from the spec: `EphemeralBuffer::is_ephemeral()` is missing from
`src/`.  "reports mode". -/
def EphemeralBuffer.is_ephemeral (b : EphemeralBuffer) : Bool :=
  b.ephemeral

/-- The older-generation buffer `I2CBuffer` (declaration in
`mbed-drivers/I2C.h`, implementation in `source/I2C.cpp`).  Same union layout
as `EphemeralBuffer`, with the tag bit `small`. -/
structure I2CBuffer where
  small : Bool
  refData : Option Nat
  refLen : Nat
  packedData : List UInt8
  packedLen : Nat
deriving DecidableEq, Repr

/-- `I2CBuffer::set(void *buf, size_t len)` from `source/I2C.cpp`: if `len`
fits the inline array (`len <= sizeof(_packed.data)`, 7 bytes), set the
`small` tag, store the length in the 7-bit bitfield and `memcpy` the bytes in
(skipped for a null pointer); otherwise store pointer and length through the
`_ref` alternative.  On the 32-bit little-endian layout the write of
`_ref.len` overwrites the byte holding the tag bit, clearing it for every
length below `2^24`; the embedding renders this as `small := false`. -/
def I2CBuffer.set (m : Mem) (b : I2CBuffer) (buf : Option Nat) (len : Nat) :
    I2CBuffer :=
  if len ≤ 7 then
    { b with
      small := true
      packedLen := len % 2 ^ 7
      packedData := match buf with
        | some p => readBytes m p len
        | none => b.packedData }
  else
    { b with refLen := len, refData := buf, small := false }

/-- `I2CBuffer::get_buf()` from `source/I2C.cpp`. -/
def I2CBuffer.get_buf (b : I2CBuffer) : BufVal :=
  if b.small then .inline b.packedData else .ext b.refData

/-- `I2CBuffer::get_len()` from `source/I2C.cpp`. -/
def I2CBuffer.get_len (b : I2CBuffer) : Nat :=
  if b.small then b.packedLen else b.refLen

/-- Context for the claims about `set`: the in-src older-generation
`I2CBuffer::set` does copy small buffers into inline storage (it implements
what the v1 design splits off into `set_ephemeral`). -/
theorem I2CBuffer_set_small_is_packed (m : Mem) (b : I2CBuffer) (p len : Nat)
    (h : len ≤ 7) :
    ((b.set m (some p) len).small = true) ∧
    ((b.set m (some p) len).get_buf = .inline (readBytes m p len)) := by
  constructor <;> simp [I2CBuffer.set, I2CBuffer.get_buf, h]

/-- Direction tag of a segment, `detail::I2CDirection` of
`mbed-drivers/v1/I2CDetail.hpp`. -/
inductive I2CDirection
  | Transmit
  | Receive
deriving DecidableEq, Repr

/-- `detail::I2CSegment` of `mbed-drivers/v1/I2CDetail.hpp`: an
`EphemeralBuffer` extended with a direction and an optional irq-context
callback.  The `_next` chain pointer is represented positionally by the
segment lists below; callbacks are identified by a number (the embedding
tracks which callback is invoked, not what it does). -/
structure I2CSegment where
  dir : I2CDirection
  buffer : EphemeralBuffer
  irqCB : Option Nat
deriving DecidableEq, Repr

/-- A freshly constructed `I2CSegment` (`I2CSegment()` constructor). -/
def I2CSegment.init : I2CSegment :=
  { dir := .Transmit, buffer := .init, irqCB := none }

/-- `detail::I2CEventHandler` of `mbed-drivers/v1/I2CDetail.hpp`:
a callback (`none` for an unset `FunctionPointer`) and an event mask. -/
structure I2CEventHandler where
  cb : Option Nat
  eventmask : Nat
deriving DecidableEq, Repr

/-- `I2CEventHandler::I2CEventHandler()`: empty callback, zero mask. -/
def I2CEventHandler.init : I2CEventHandler := { cb := none, eventmask := 0 }

/-- `I2CEventHandler::operator bool` from `source/v1/I2CDetail.cpp`:
`return _eventmask && _cb;`. -/
def I2CEventHandler.truthy (h : I2CEventHandler) : Bool :=
  h.eventmask ≠ 0 && h.cb.isSome

/-- The loop of `I2CTransaction::add_event` (`source/v1/I2C.cpp`): scan the
flat handler array for the first slot whose `operator bool` is false, store
`(cb, event)` there and stop; the returned flag is `i <
I2C_TRANSACTION_NHANDLERS`, i.e. whether a slot was found. -/
def addEventLoop (hs : List I2CEventHandler) (event : Nat) (cb : Nat) :
    List I2CEventHandler × Bool :=
  match hs with
  | [] => ([], false)
  | h :: rest =>
    if h.truthy then
      let r := addEventLoop rest event cb
      (h :: r.1, r.2)
    else
      ({ cb := some cb, eventmask := event } :: rest, true)

/-- The loop of `I2CTransaction::process_event` (`source/v1/I2C.cpp`): call
every handler whose `operator bool` is true, in array order, passing the raw
event; the result lists the `(callback, event)` invocations made. -/
def dispatchCalls (hs : List I2CEventHandler) (event : Nat) : List (Nat × Nat) :=
  match hs with
  | [] => []
  | h :: rest =>
    if h.truthy then
      match h.cb with
      | some c => (c, event) :: dispatchCalls rest event
      | none => dispatchCalls rest event
    else
      dispatchCalls rest event

/-- `I2CTransaction` of `mbed-drivers/v1/I2C.hpp`.  `segs` is the chain
rooted at `_root`; `curr` is the suffix of `segs` headed by the segment
`_current` points to (`[]` for a null cursor); `id` models the object's
address (pointer identity in the queue); the `_next` queue link is
represented positionally by the queue lists. -/
structure I2CTransaction where
  id : Nat
  address : Nat
  segs : List I2CSegment
  curr : List I2CSegment
  hz : Nat
  repeated : Bool
  irqsafe : Bool
  handlers : List I2CEventHandler
deriving DecidableEq, Repr

/-- The handler array of a freshly constructed transaction
(`I2C_TRANSACTION_NHANDLERS = 4` default-constructed slots). -/
def initHandlers : List I2CEventHandler :=
  [.init, .init, .init, .init]

/-- The `I2CTransaction(address, hz, irqsafe, issuer)` constructor from
`source/v1/I2C.cpp`: null root and current, `repeated` false. -/
def I2CTransaction.mkNew (id address hz : Nat) (irqsafe : Bool) : I2CTransaction :=
  { id := id, address := address, segs := [], curr := [], hz := hz,
    repeated := false, irqsafe := irqsafe, handlers := initHandlers }

/-- `I2CTransaction::advance_segment` from `source/v1/I2C.cpp`: if `_current`
is null return false; otherwise move `_current` to its successor and report
whether the new cursor is non-null. -/
def I2CTransaction.advance_segment (t : I2CTransaction) : I2CTransaction × Bool :=
  match t.curr with
  | [] => (t, false)
  | _ :: rest => ({ t with curr := rest }, !rest.isEmpty)

/-- `I2CTransaction::reset_current` from `mbed-drivers/v1/I2C.hpp`:
`_current = _root`. -/
def I2CTransaction.reset_current (t : I2CTransaction) : I2CTransaction :=
  { t with curr := t.segs }

/-- `I2CTransaction::get_current` from `mbed-drivers/v1/I2C.hpp`. -/
def I2CTransaction.get_current (t : I2CTransaction) : Option I2CSegment :=
  t.curr.head?

/-- `I2CTransaction::add_event` from `source/v1/I2C.cpp`. -/
def I2CTransaction.add_event (t : I2CTransaction) (event : Nat) (cb : Nat) :
    I2CTransaction × Bool :=
  let r := addEventLoop t.handlers event cb
  ({ t with handlers := r.1 }, r.2)

/-- `I2CTransaction::process_event` from `source/v1/I2C.cpp`, returning the
task-level handler invocations it performs. -/
def I2CTransaction.process_event (t : I2CTransaction) (event : Nat) :
    List (Nat × Nat) :=
  dispatchCalls t.handlers event

/-- `I2CTransaction::new_segment` from `source/v1/I2C.cpp`, given the
freshly allocated segment: append it at the tail (`_current->set_next(s)`)
and point `_current` at it; for an empty chain it becomes the root. -/
def I2CTransaction.append_segment (t : I2CTransaction) (s : I2CSegment) :
    I2CTransaction :=
  { t with segs := t.segs ++ [s], curr := [s] }

/-- `I2CTransaction::append` from `source/v1/I2C.cpp`, expressed on the queue
list headed by `this`: walk the `_next` chain to the tail and attach `t`. -/
def appendTxn (q : List I2CTransaction) (t : I2CTransaction) :
    List I2CTransaction :=
  match q with
  | [] => [t]
  | x :: rest =>
    match rest with
    | [] => [x, t]
    | _ :: _ => x :: appendTxn rest t

theorem appendTxn_eq_append (q : List I2CTransaction) (t : I2CTransaction) :
    appendTxn q t = q ++ [t] := by
  induction q with
  | nil => rfl
  | cons x rest ih =>
    cases rest with
    | nil => rfl
    | cons y rest' => simpa [appendTxn] using ih

/-- One `i2c_transfer_asynch` invocation as seen by the HAL, plus the
identity of the transaction it was issued for (`issuedFor` records which
queue head `start_segment` read). -/
structure HalCall where
  txBuf : BufVal
  txLen : Nat
  rxBuf : BufVal
  rxLen : Nat
  address : Nat
  stop : Bool
  eventMask : Nat
  issuedFor : Nat
deriving DecidableEq, Repr

/-- The externally visible actions of the resource manager: scheduling a
task-level dispatch (`minar::Scheduler::postCallback` of `handle_event`),
programming the HAL, firing a segment's irq-context hook, and the power
hooks. -/
inductive RMAction
  | schedule (t : I2CTransaction) (event : Nat)
  | halFrequency (hz : Nat)
  | halTransfer (c : HalCall)
  | segmentIrq (cb : Nat) (event : Nat)
  | powerUp
  | powerDown
deriving DecidableEq, Repr

/-- `I2CTransaction::call_irq_cb` composed with `I2CSegment::call_irq_cb`
(`source/v1/I2C.cpp`, `mbed-drivers/v1/I2CDetail.hpp`): if `_current` is
non-null and carries an irq hook, fire it with the event. -/
def I2CTransaction.call_irq_cb (t : I2CTransaction) (event : Nat) :
    List RMAction :=
  match t.curr with
  | [] => []
  | s :: _ =>
    match s.irqCB with
    | some f => [.segmentIrq f event]
    | none => []

/-- `HWI2CResourceManager::validate_transaction` from
`source/v1/I2CDetail.cpp`: returns `None` unconditionally. -/
def HWvalidate_transaction (t : I2CTransaction) : I2CError :=
  let _ := t
  I2CError.None

/-- `HWI2CResourceManager::start_segment` from `source/v1/I2CDetail.cpp`:
read the queue head and its current segment (failing with `NullTransaction`
resp. `NullSegment`), compute `stop = (s->get_next() == nullptr) &&
(!t->repeated())`, and issue `i2c_transfer_asynch` with the segment's buffer
on the side matching its direction, subscribing to `I2C_EVENT_ALL`. -/
def HWstart_segment (q : List I2CTransaction) : Except I2CError HalCall :=
  match q with
  | [] => .error .NullTransaction
  | t :: _ =>
    match t.curr with
    | [] => .error .NullSegment
    | s :: srest =>
      let stop := srest.isEmpty && !t.repeated
      if s.dir = I2CDirection.Transmit then
        .ok { txBuf := s.buffer.get_buf, txLen := s.buffer.get_len,
              rxBuf := .ext none, rxLen := 0, address := t.address,
              stop := stop, eventMask := I2C_EVENT_ALL, issuedFor := t.id }
      else
        .ok { txBuf := .ext none, txLen := 0,
              rxBuf := s.buffer.get_buf, rxLen := s.buffer.get_len,
              address := t.address, stop := stop,
              eventMask := I2C_EVENT_ALL, issuedFor := t.id }

/-- `HWI2CResourceManager::start_transaction` from `source/v1/I2CDetail.cpp`:
refuse with `Busy` while the HAL reports an active transfer (`active` stands
for `i2c_active(&_i2c)`); otherwise program the head transaction's frequency,
reset its cursor to the root segment and call `start_segment`, propagating
its result.  Returns the updated queue and the HAL actions performed. -/
def HWstart_transaction (active : Bool) (q : List I2CTransaction) :
    List I2CTransaction × List RMAction × I2CError :=
  if active then (q, [], .Busy)
  else
    match q with
    | [] => (q, [], .NullTransaction)
    | t :: rest =>
      let t' := t.reset_current
      match HWstart_segment (t' :: rest) with
      | .ok c => (t' :: rest, [.halFrequency t.hz, .halTransfer c], .None)
      | .error e => (t' :: rest, [.halFrequency t.hz], e)

/-- `I2CResourceManager::post_transaction` from `source/v1/I2CDetail.cpp`:
reject a null transaction, validate, then under the critical section either
tail-append to a non-empty queue or install the transaction as head, power
up and start it. -/
def RMpost_transaction (active : Bool) (q : List I2CTransaction)
    (t? : Option I2CTransaction) :
    List I2CTransaction × List RMAction × I2CError :=
  match t? with
  | none => (q, [], .NullTransaction)
  | some t =>
    let rc := HWvalidate_transaction t
    if rc ≠ I2CError.None then (q, [], rc)
    else
      match q with
      | [] =>
        let r := HWstart_transaction active [t]
        (r.1, .powerUp :: r.2.1, r.2.2)
      | x :: rest => (appendTxn (x :: rest) t, [], .None)

/-- Result of one `process_event` step: the new queue and the actions
performed (in order). -/
structure PEOut where
  queue : List I2CTransaction
  actions : List RMAction
deriving DecidableEq, Repr

/-- `I2CResourceManager::process_event` from `source/v1/I2CDetail.cpp`:
on a null queue head, assert and return.  Otherwise fire the current
segment's irq hook, advance the segment cursor, and decide: if any non-
completion event bit is set, or the completion bit is set and no segment
remains, schedule the task-level dispatch for the (advanced) transaction,
pop it, and either start the next transaction or power down; else if a
segment remains, start it. -/
def RMprocess_event (active : Bool) (q : List I2CTransaction) (event : Nat) :
    PEOut :=
  match q with
  | [] => { queue := [], actions := [] }
  | t :: rest =>
    let irqActs := t.call_irq_cb event
    let t1 := (t.advance_segment).1
    let transactionDone := !(t.advance_segment).2
    if (event &&& I2C_EVENT_ALL &&& UINT32_NOT_COMPLETE) ≠ 0 ∨
       ((event &&& I2C_EVENT_TRANSFER_COMPLETE) ≠ 0 ∧ transactionDone = true) then
      match rest with
      | [] =>
        { queue := [], actions := irqActs ++ [.schedule t1 event, .powerDown] }
      | _ :: _ =>
        let r := HWstart_transaction active rest
        { queue := r.1, actions := irqActs ++ (.schedule t1 event :: r.2.1) }
    else if transactionDone = false then
      match HWstart_segment (t1 :: rest) with
      | .ok c => { queue := t1 :: rest, actions := irqActs ++ [.halTransfer c] }
      | .error _ => { queue := t1 :: rest, actions := irqActs }
    else
      { queue := t1 :: rest, actions := irqActs }

/-- `I2CResourceManager::handle_event` from `source/v1/I2CDetail.cpp`:
run the transaction's handlers on the event, then free the transaction via
its issuer.  Returns the handler invocations and the id of the freed
transaction. -/
def RMhandle_event (t : I2CTransaction) (event : Nat) :
    List (Nat × Nat) × Nat :=
  (t.process_event event, t.id)

/-- Repeated `process_event` steps; each step supplies the `i2c_active` flag
observed by `start_transaction` and the event bits delivered by the HAL.
Returns the final queue and the concatenated action trace. -/
def RMrun (q : List I2CTransaction) : List (Bool × Nat) →
    List I2CTransaction × List RMAction
  | [] => (q, [])
  | (a, e) :: steps =>
    let r := RMprocess_event a q e
    let rr := RMrun r.queue steps
    (rr.1, r.actions ++ rr.2)

/-- The pointer identities of the queued transactions. -/
def queueIds (q : List I2CTransaction) : List Nat :=
  q.map (·.id)

/-- The transactions for which a HAL transfer was issued in a trace. -/
def transfersOf (acts : List RMAction) : List Nat :=
  acts.filterMap fun a =>
    match a with
    | .halTransfer c => some c.issuedFor
    | _ => none

/-- The task-level dispatches scheduled in a trace. -/
def schedulesOf (acts : List RMAction) : List (I2CTransaction × Nat) :=
  acts.filterMap fun a =>
    match a with
    | .schedule t e => some (t, e)
    | _ => none

/-- The allocation-relevant state of an `I2C` object (`mbed-drivers/v1/
I2C.hpp`): whether pin binding produced a resource manager (`_owner`), and
the optional pool allocators with their free-slot counts.  Heap allocation
(the non-irqsafe path) always succeeds. -/
structure I2CState where
  ownerPresent : Bool
  hasTransactionPool : Bool
  transactionPoolFree : Nat
  hasSegmentPool : Bool
  segmentPoolFree : Nat
deriving DecidableEq, Repr

/-- `I2C::new_transaction` from `source/v1/I2C.cpp`: irqsafe requests fail
with a null result when the transaction pool is absent or exhausted;
otherwise a fresh transaction is constructed.  The caller supplies the
identity `id` of the allocation. -/
def I2Cnew_transaction (st : I2CState) (id address hz : Nat) (irqsafe : Bool) :
    I2CState × Option I2CTransaction :=
  if irqsafe then
    if !st.hasTransactionPool then (st, none)
    else if st.transactionPoolFree = 0 then (st, none)
    else ({ st with transactionPoolFree := st.transactionPoolFree - 1 },
          some (I2CTransaction.mkNew id address hz irqsafe))
  else (st, some (I2CTransaction.mkNew id address hz irqsafe))

/-- `I2C::new_segment` from `source/v1/I2C.cpp`: irqsafe requests fail with
a null result when the segment pool is absent or exhausted; otherwise a
default-constructed segment is returned. -/
def I2Cnew_segment (st : I2CState) (irqsafe : Bool) :
    I2CState × Option I2CSegment :=
  if irqsafe then
    if !st.hasSegmentPool then (st, none)
    else if st.segmentPoolFree = 0 then (st, none)
    else ({ st with segmentPoolFree := st.segmentPoolFree - 1 },
          some I2CSegment.init)
  else (st, some I2CSegment.init)

/-- `I2C::post_transaction` from `source/v1/I2C.cpp`: fail with
`InvalidMaster` when the object has no resource manager, otherwise forward
to the manager's `post_transaction`. -/
def I2Cpost_transaction (ownerPresent active : Bool) (q : List I2CTransaction)
    (t? : Option I2CTransaction) :
    List I2CTransaction × List RMAction × I2CError :=
  if !ownerPresent then (q, [], .InvalidMaster)
  else RMpost_transaction active q t?

/-- Dereferencing a null pointer.  The C++ source performs the access
unguarded; the embedding makes the fault explicit. -/
inductive Fault
  | nullDeref
deriving DecidableEq, Repr

/-- `I2C::TransferAdder` from `mbed-drivers/v1/I2C.hpp`: the composed
transaction (null when allocation failed), the `_posted` flag and `_rc`
cache, and the irqsafe mode. -/
structure TransferAdder where
  xact : Option I2CTransaction
  posted : Bool
  rc : I2CError
  irqsafe : Bool
deriving DecidableEq, Repr

/-- The `TransferAdder(i2c, address, hz, irqsafe)` constructor from
`source/v1/I2C.cpp`: allocate a transaction (possibly null), `_posted`
false, `_rc` `None`. -/
def TransferAdder.mkNew (st : I2CState) (id address hz : Nat) (irqsafe : Bool) :
    I2CState × TransferAdder :=
  let r := I2Cnew_transaction st id address hz irqsafe
  (r.1, { xact := r.2, posted := false, rc := .None, irqsafe := irqsafe })

/-- `I2C::TransferAdder::tx(void *buf, size_t len)` from `source/v1/I2C.cpp`:
`_xact->new_segment()` (a null-`_xact` dereference when allocation failed),
then `s->set(buf, len)` and `s->set_dir(Transmit)` on the returned segment (a
null-`s` dereference when the segment pool is exhausted).  The in-place
configuration of the freshly appended segment is rendered as appending the
configured segment. -/
def TransferAdder.tx (st : I2CState) (b : TransferAdder) (buf : Option Nat)
    (len : Nat) : Except Fault (I2CState × TransferAdder) :=
  match b.xact with
  | none => .error .nullDeref
  | some t =>
    let r := I2Cnew_segment st t.irqsafe
    match r.2 with
    | none => .error .nullDeref
    | some s0 =>
      let s : I2CSegment :=
        { s0 with buffer := s0.buffer.set buf len, dir := .Transmit }
      .ok (r.1, { b with xact := some (t.append_segment s) })

/-- `I2C::TransferAdder::rx(void *buf, size_t len)` from `source/v1/I2C.cpp`;
same shape as `tx` with direction `Receive`. -/
def TransferAdder.rx (st : I2CState) (b : TransferAdder) (buf : Option Nat)
    (len : Nat) : Except Fault (I2CState × TransferAdder) :=
  match b.xact with
  | none => .error .nullDeref
  | some t =>
    let r := I2Cnew_segment st t.irqsafe
    match r.2 with
    | none => .error .nullDeref
    | some s0 =>
      let s : I2CSegment :=
        { s0 with buffer := s0.buffer.set buf len, dir := .Receive }
      .ok (r.1, { b with xact := some (t.append_segment s) })

/-- `I2C::TransferAdder::rx(size_t len)` from `source/v1/I2C.cpp`: a receive
segment whose buffer is set with `set_ephemeral(nullptr, len)` (no bytes are
copied for the null pointer). -/
def TransferAdder.rxLen (st : I2CState) (b : TransferAdder) (m : Mem)
    (len : Nat) : Except Fault (I2CState × TransferAdder) :=
  match b.xact with
  | none => .error .nullDeref
  | some t =>
    let r := I2Cnew_segment st t.irqsafe
    match r.2 with
    | none => .error .nullDeref
    | some s0 =>
      let s : I2CSegment :=
        { s0 with buffer := EphemeralBuffer.set_ephemeral m s0.buffer none len,
                  dir := .Receive }
      .ok (r.1, { b with xact := some (t.append_segment s) })

/-- `I2C::TransferAdder::on` from `source/v1/I2C.cpp`:
`_xact->add_event(event, cb)` with the success flag discarded. -/
def TransferAdder.on (b : TransferAdder) (event : Nat) (cb : Nat) :
    Except Fault TransferAdder :=
  match b.xact with
  | none => .error .nullDeref
  | some t => .ok { b with xact := some (t.add_event event cb).1 }

/-- `I2C::TransferAdder::frequency` from `source/v1/I2C.cpp`:
`_xact->freq(hz)`. -/
def TransferAdder.frequency (b : TransferAdder) (hz : Nat) :
    Except Fault TransferAdder :=
  match b.xact with
  | none => .error .nullDeref
  | some t => .ok { b with xact := some { t with hz := hz } }

/-- `I2C::TransferAdder::repeated_start` from `source/v1/I2C.cpp`:
`_xact->repeated(true)`. -/
def TransferAdder.repeated_start (b : TransferAdder) :
    Except Fault TransferAdder :=
  match b.xact with
  | none => .error .nullDeref
  | some t => .ok { b with xact := some { t with repeated := true } }

/-- Result of `TransferAdder::apply`: the builder afterwards, the queue and
action trace of the resource manager, the returned error code, and whether
`post_transaction` was invoked by this call. -/
structure ApplyOut where
  adder : TransferAdder
  queue : List I2CTransaction
  actions : List RMAction
  rc : I2CError
  invokedPost : Bool
deriving DecidableEq, Repr

/-- `I2C::TransferAdder::apply` from `source/v1/I2C.cpp`:

    if (_posted) { return _rc; }
    return _i2c->post_transaction(_xact);

Note that the source never assigns `_posted` or `_rc`; the builder is
returned unchanged on the posting path. -/
def TransferAdder.apply (ownerPresent active : Bool)
    (q : List I2CTransaction) (b : TransferAdder) : ApplyOut :=
  if b.posted then
    { adder := b, queue := q, actions := [], rc := b.rc, invokedPost := false }
  else
    let r := I2Cpost_transaction ownerPresent active q b.xact
    { adder := b, queue := r.1, actions := r.2.1, rc := r.2.2,
      invokedPost := true }

/-- `I2C::TransferAdder::~TransferAdder` from `source/v1/I2C.cpp`: the
destructor unconditionally calls `apply()`. -/
def TransferAdder.dtor (ownerPresent active : Bool)
    (q : List I2CTransaction) (b : TransferAdder) : ApplyOut :=
  TransferAdder.apply ownerPresent active q b

/-! ## Concrete objects used by the witnesses and counterexamples -/

/-- A concrete memory for witnesses. -/
def demoMem : Mem := fun a => UInt8.ofNat (a % 251)

/-- A concrete transmit segment referencing two bytes at address 1000. -/
def demoSeg : I2CSegment :=
  { dir := .Transmit, buffer := EphemeralBuffer.init.set (some 1000) 2,
    irqCB := none }

/-- A second concrete segment (receive, 4 bytes at address 2000). -/
def demoSeg2 : I2CSegment :=
  { dir := .Receive, buffer := EphemeralBuffer.init.set (some 2000) 4,
    irqCB := none }

/-! ## Claim theorems -/

/-- Claim C7: for every length `len ≤ INLINE_CAP` and byte sequence `B` (the
`len` bytes in memory at `p`), after `set_ephemeral(B.ptr, len)` the buffer
reports length `len`, is ephemeral, and its inline storage holds exactly
`B`. -/
theorem set_ephemeral_roundtrip (m : Mem) (b : EphemeralBuffer) (p len : Nat)
    (h : len ≤ INLINE_CAP) :
    ((EphemeralBuffer.set_ephemeral m b (some p) len).get_len = len) ∧
    ((EphemeralBuffer.set_ephemeral m b (some p) len).is_ephemeral = true) ∧
    ((EphemeralBuffer.set_ephemeral m b (some p) len).get_buf
        = .inline (readBytes m p len)) ∧
    ((readBytes m p len).length = len) := by
  have h7 : len ≤ 7 := h
  have hmod : len % 2 ^ 7 = len := Nat.mod_eq_of_lt (by omega)
  refine ⟨?_, ?_, ?_, readBytes_length m p len⟩ <;>
    simp [EphemeralBuffer.set_ephemeral, EphemeralBuffer.get_len,
      EphemeralBuffer.is_ephemeral, EphemeralBuffer.get_buf, h, hmod]
  omega

/-- Witness for C7 at `len = 3`, `p = 100`. -/
theorem set_ephemeral_roundtrip_witness :
    ((EphemeralBuffer.set_ephemeral demoMem .init (some 100) 3).get_len = 3) ∧
    ((EphemeralBuffer.set_ephemeral demoMem .init (some 100) 3).is_ephemeral
        = true) ∧
    ((EphemeralBuffer.set_ephemeral demoMem .init (some 100) 3).get_buf
        = .inline (readBytes demoMem 100 3)) ∧
    ((readBytes demoMem 100 3).length = 3) :=
  set_ephemeral_roundtrip demoMem .init 100 3 (by decide)

/-- Claim C8: for every pointer and every length below `2^31`, `set` stores
the buffer in Ref mode — `get_buf` returns the pointer, `get_len` the length,
`is_ephemeral` is false — and copies nothing (the inline storage is left
untouched), regardless of how small the length is. -/
theorem set_always_ref (b : EphemeralBuffer) (buf : Option Nat) (len : Nat)
    (h : len < 2 ^ 31) :
    ((b.set buf len).get_buf = .ext buf) ∧
    ((b.set buf len).get_len = len) ∧
    ((b.set buf len).is_ephemeral = false) ∧
    ((b.set buf len).data = b.data) := by
  have hmod : len % 2 ^ 31 = len := Nat.mod_eq_of_lt h
  refine ⟨?_, ?_, ?_, ?_⟩ <;>
    simp [EphemeralBuffer.set, EphemeralBuffer.get_buf, EphemeralBuffer.get_len,
      EphemeralBuffer.is_ephemeral, hmod]
  omega

/-- Witness for C8 at a length (2) small enough for the inline storage, on a
buffer previously holding inline data: the data bytes stay untouched and the
result is in Ref mode. -/
theorem set_always_ref_witness :
    ((EphemeralBuffer.set ⟨true, none, 0, [9, 9], 2⟩ (some 500) 2).get_buf
        = .ext (some 500)) ∧
    ((EphemeralBuffer.set ⟨true, none, 0, [9, 9], 2⟩ (some 500) 2).get_len
        = 2) ∧
    ((EphemeralBuffer.set ⟨true, none, 0, [9, 9], 2⟩ (some 500) 2).is_ephemeral
        = false) ∧
    ((EphemeralBuffer.set ⟨true, none, 0, [9, 9], 2⟩ (some 500) 2).data
        = (⟨true, none, 0, [9, 9], 2⟩ : EphemeralBuffer).data) :=
  set_always_ref ⟨true, none, 0, [9, 9], 2⟩ (some 500) 2 (by decide)

/-- Claim C3: whenever `start_segment` issues a segment to the hardware, the
`stop` argument of the HAL call is true iff the segment has no successor and
the transaction's repeated-start flag is false. -/
theorem start_segment_stop_iff (t : I2CTransaction) (rest : List I2CTransaction)
    (s : I2CSegment) (srest : List I2CSegment) (h : t.curr = s :: srest) :
    ∃ c, HWstart_segment (t :: rest) = .ok c ∧
      (c.stop = true ↔ (srest = [] ∧ t.repeated = false)) := by
  simp only [HWstart_segment, h]
  by_cases hd : s.dir = I2CDirection.Transmit
  · rw [if_pos hd]
    refine ⟨_, rfl, ?_⟩
    cases srest <;> cases hr : t.repeated <;> simp
  · rw [if_neg hd]
    refine ⟨_, rfl, ?_⟩
    cases srest <;> cases hr : t.repeated <;> simp

/-- Witness for C3: a transaction holding its last segment with
`repeated = false`. -/
theorem start_segment_stop_iff_witness :
    ∃ c, HWstart_segment
        [{ I2CTransaction.mkNew 4 80 100000 false with
            segs := [demoSeg], curr := [demoSeg] }] = .ok c ∧
      (c.stop = true ↔ (([] : List I2CSegment) = [] ∧
        ({ I2CTransaction.mkNew 4 80 100000 false with
            segs := [demoSeg], curr := [demoSeg] }).repeated = false)) :=
  start_segment_stop_iff _ [] demoSeg [] rfl

theorem addEventLoop_found (hs : List I2CEventHandler) (e cb : Nat) :
    (addEventLoop hs e cb).2 = hs.any fun h => !h.truthy := by
  induction hs with
  | nil => rfl
  | cons h rest ih =>
    cases htt : h.truthy with
    | true => simp [addEventLoop, htt, ih]
    | false => simp [addEventLoop, htt]

theorem dispatchCalls_addEventLoop_zero (hs : List I2CEventHandler) (cb ev : Nat) :
    dispatchCalls (addEventLoop hs 0 cb).1 ev = dispatchCalls hs ev := by
  induction hs with
  | nil => rfl
  | cons h rest ih =>
    cases htt : h.truthy with
    | true => simp [addEventLoop, dispatchCalls, htt, ih]
    | false =>
      have hz : I2CEventHandler.truthy { cb := some cb, eventmask := 0 } = false := rfl
      simp [addEventLoop, dispatchCalls, htt, hz]

theorem addEventLoop_zero_overwritten (hs : List I2CEventHandler)
    (cb m' cb' : Nat) :
    (addEventLoop (addEventLoop hs 0 cb).1 m' cb').1
      = (addEventLoop hs m' cb').1 := by
  induction hs with
  | nil => rfl
  | cons h rest ih =>
    cases htt : h.truthy with
    | true => simp [addEventLoop, htt, ih]
    | false =>
      have hz : I2CEventHandler.truthy { cb := some cb, eventmask := 0 } = false := rfl
      simp [addEventLoop, htt, hz]

/-- Claim C10: registering a handler with a zero event mask succeeds (when a
free slot exists) but is invisible: the occupied slot still tests as empty, so
`process_event` makes exactly the invocations it would have made without the
registration, and a later `add_event` lands in that same slot, overwriting
it. -/
theorem add_event_zero_mask_ghost (t : I2CTransaction) (cb m' cb' ev : Nat)
    (hfree : (t.handlers.any fun h => !h.truthy) = true) :
    ((t.add_event 0 cb).2 = true) ∧
    ((t.add_event 0 cb).1.process_event ev = t.process_event ev) ∧
    (((t.add_event 0 cb).1.add_event m' cb').1.handlers
        = (t.add_event m' cb').1.handlers) := by
  refine ⟨?_, ?_, ?_⟩
  · rw [I2CTransaction.add_event, addEventLoop_found]
    exact hfree
  · simp [I2CTransaction.add_event, I2CTransaction.process_event,
      dispatchCalls_addEventLoop_zero]
  · simp [I2CTransaction.add_event, addEventLoop_zero_overwritten]

/-- Witness for C10 on a freshly constructed transaction. -/
theorem add_event_zero_mask_ghost_witness :
    (((I2CTransaction.mkNew 6 80 100000 false).add_event 0 11).2 = true) ∧
    (((I2CTransaction.mkNew 6 80 100000 false).add_event 0 11).1.process_event
        I2C_EVENT_TRANSFER_COMPLETE
      = (I2CTransaction.mkNew 6 80 100000 false).process_event
          I2C_EVENT_TRANSFER_COMPLETE) ∧
    ((((I2CTransaction.mkNew 6 80 100000 false).add_event 0 11).1.add_event
          I2C_EVENT_TRANSFER_COMPLETE 12).1.handlers
      = ((I2CTransaction.mkNew 6 80 100000 false).add_event
          I2C_EVENT_TRANSFER_COMPLETE 12).1.handlers) :=
  add_event_zero_mask_ghost (I2CTransaction.mkNew 6 80 100000 false)
    11 I2C_EVENT_TRANSFER_COMPLETE 12 I2C_EVENT_TRANSFER_COMPLETE (by decide)

/-- A transaction whose only handler is registered for the completion event
(callback 7, mask `I2C_EVENT_TRANSFER_COMPLETE`). -/
def maskedHandlerTxn : I2CTransaction :=
  ((I2CTransaction.mkNew 3 80 100000 false).add_event
    I2C_EVENT_TRANSFER_COMPLETE 7).1

/-- Claim C1 (evaluated at the failing input): task-level dispatch ignores
the registered event mask.  A handler registered only for
`I2C_EVENT_TRANSFER_COMPLETE` is invoked by `handle_event` for a pure
`I2C_EVENT_ERROR` event even though its mask does not intersect the event. -/
theorem handle_event_ignores_mask :
    ((RMhandle_event maskedHandlerTxn I2C_EVENT_ERROR).1
        = [(7, I2C_EVENT_ERROR)]) ∧
    (I2C_EVENT_TRANSFER_COMPLETE &&& I2C_EVENT_ERROR = 0) := by
  decide

/-- A concrete one-segment transaction (id 1) used by the `apply` claims. -/
def demoTxn : I2CTransaction :=
  (I2CTransaction.mkNew 1 80 100000 false).append_segment demoSeg

/-- Claim C2 (evaluated at the failing input): `apply()` never records that
the transaction was posted (`_posted` is checked but never assigned), so a
second call to `apply()` — such as the implicit one from the destructor —
invokes `post_transaction` again, queueing the same transaction twice. -/
theorem apply_twice_invokes_post_twice :
    ((TransferAdder.apply true false []
        { xact := some demoTxn, posted := false, rc := .None,
          irqsafe := false }).invokedPost = true) ∧
    ((TransferAdder.apply true false
        (TransferAdder.apply true false []
          { xact := some demoTxn, posted := false, rc := .None,
            irqsafe := false }).queue
        (TransferAdder.apply true false []
          { xact := some demoTxn, posted := false, rc := .None,
            irqsafe := false }).adder).invokedPost = true) ∧
    (queueIds (TransferAdder.apply true false
        (TransferAdder.apply true false []
          { xact := some demoTxn, posted := false, rc := .None,
            irqsafe := false }).queue
        (TransferAdder.apply true false []
          { xact := some demoTxn, posted := false, rc := .None,
            irqsafe := false }).adder).queue = [1, 1]) := by
  decide

/-- A zero-segment (address-ping) transaction. -/
def pingTxn : I2CTransaction := I2CTransaction.mkNew 5 80 100000 false

/-- Claim C6 (evaluated at the failing input): posting a zero-segment
transaction to an idle, empty manager leaves it wedged — `start_transaction`
propagates `NullSegment` from `start_segment` (whose current-segment null
check fails after `reset_current` on an empty chain), no HAL transfer is
issued, and the transaction stays at the queue head, so no completion event
will ever pop it. -/
theorem zero_segment_transaction_stalls :
    ((HWstart_transaction false [pingTxn]).2.2 = I2CError.NullSegment) ∧
    (transfersOf (HWstart_transaction false [pingTxn]).2.1 = []) ∧
    ((RMpost_transaction false [] (some pingTxn)).2.2
        = I2CError.NullSegment) ∧
    (transfersOf (RMpost_transaction false [] (some pingTxn)).2.1 = []) ∧
    (queueIds (RMpost_transaction false [] (some pingTxn)).1 = [5]) := by
  decide

/-- An `I2C` object with a bound resource manager but no pool allocators. -/
def poollessI2C : I2CState :=
  { ownerPresent := true, hasTransactionPool := false, transactionPoolFree := 0,
    hasSegmentPool := false, segmentPoolFree := 0 }

/-- Claim C9, counterexample: an irqsafe builder on an `I2C` object without a
transaction pool gets a null `_xact` (`new_transaction` returns null); the
next `tx` call is then not a harmless no-op — `_xact->new_segment()`
dereferences the null transaction pointer. -/
theorem tx_after_null_allocation_faults :
    (((TransferAdder.mkNew poollessI2C 2 80 100000 true).2).xact = none) ∧
    (TransferAdder.tx poollessI2C
        ((TransferAdder.mkNew poollessI2C 2 80 100000 true).2) (some 1000) 2
      = .error .nullDeref) :=
  ⟨by decide, rfl⟩

/-- Claim C9 as amended: when `new_transaction` returned null, every
subsequent builder operation dereferences the null `_xact` (a fault, not a
no-op; `tx`/`rx` likewise dereference a null segment when `new_segment`
returns null), and a not-yet-posted `apply()` hands the null transaction to
`post_transaction`, which rejects it with `NullTransaction` — never
`MissingPoolAllocator` — without posting or touching the hardware. -/
theorem null_builder_ops_fault (st : I2CState) (b : TransferAdder) (m : Mem)
    (q : List I2CTransaction) (active : Bool) (buf : Option Nat)
    (len event cb hz : Nat) (hx : b.xact = none) (hp : b.posted = false) :
    (TransferAdder.tx st b buf len = .error .nullDeref) ∧
    (TransferAdder.rx st b buf len = .error .nullDeref) ∧
    (TransferAdder.rxLen st b m len = .error .nullDeref) ∧
    (TransferAdder.on b event cb = .error .nullDeref) ∧
    (TransferAdder.frequency b hz = .error .nullDeref) ∧
    (TransferAdder.repeated_start b = .error .nullDeref) ∧
    ((TransferAdder.apply true active q b).rc = I2CError.NullTransaction) ∧
    ((TransferAdder.apply true active q b).queue = q) ∧
    ((TransferAdder.apply true active q b).actions = []) := by
  refine ⟨?_, ?_, ?_, ?_, ?_, ?_, ?_, ?_, ?_⟩ <;>
    simp [TransferAdder.tx, TransferAdder.rx, TransferAdder.rxLen,
      TransferAdder.on, TransferAdder.frequency, TransferAdder.repeated_start,
      TransferAdder.apply, I2Cpost_transaction, RMpost_transaction, hx, hp]

/-- Witness for the amended C9 on the concrete poolless irqsafe builder. -/
theorem null_builder_ops_fault_witness :
    (TransferAdder.tx poollessI2C
        ((TransferAdder.mkNew poollessI2C 3 80 100000 true).2) (some 1000) 2
      = .error .nullDeref) ∧
    (TransferAdder.rx poollessI2C
        ((TransferAdder.mkNew poollessI2C 3 80 100000 true).2) (some 1000) 2
      = .error .nullDeref) ∧
    (TransferAdder.rxLen poollessI2C
        ((TransferAdder.mkNew poollessI2C 3 80 100000 true).2) demoMem 2
      = .error .nullDeref) ∧
    (TransferAdder.on ((TransferAdder.mkNew poollessI2C 3 80 100000 true).2)
        I2C_EVENT_ALL 9 = .error .nullDeref) ∧
    (TransferAdder.frequency
        ((TransferAdder.mkNew poollessI2C 3 80 100000 true).2) 400000
      = .error .nullDeref) ∧
    (TransferAdder.repeated_start
        ((TransferAdder.mkNew poollessI2C 3 80 100000 true).2)
      = .error .nullDeref) ∧
    ((TransferAdder.apply true false []
        ((TransferAdder.mkNew poollessI2C 3 80 100000 true).2)).rc
      = I2CError.NullTransaction) ∧
    ((TransferAdder.apply true false []
        ((TransferAdder.mkNew poollessI2C 3 80 100000 true).2)).queue
      = []) ∧
    ((TransferAdder.apply true false []
        ((TransferAdder.mkNew poollessI2C 3 80 100000 true).2)).actions
      = []) :=
  null_builder_ops_fault poollessI2C
    ((TransferAdder.mkNew poollessI2C 3 80 100000 true).2) demoMem [] false
    (some 1000) 2 I2C_EVENT_ALL 9 400000 (by decide) (by decide)

theorem HWstart_transaction_queueIds (active : Bool) (q : List I2CTransaction) :
    queueIds (HWstart_transaction active q).1 = queueIds q := by
  unfold HWstart_transaction
  split
  · rfl
  · split
    · rfl
    · simp only []
      split <;> simp [queueIds, I2CTransaction.reset_current]

/-- Claim C5: posting a non-null transaction that passes validation installs
it as head, powers up and starts it when the queue is empty; otherwise it is
appended at the tail after all previously queued transactions, with success
reported and no hardware interaction. -/
theorem post_transaction_queue_spec (active : Bool) (q : List I2CTransaction)
    (t : I2CTransaction) :
    (q = [] →
      (queueIds (RMpost_transaction active q (some t)).1 = [t.id]) ∧
      ((RMpost_transaction active q (some t)).2.1
          = .powerUp :: (HWstart_transaction active [t]).2.1) ∧
      ((RMpost_transaction active q (some t)).2.2
          = (HWstart_transaction active [t]).2.2)) ∧
    (q ≠ [] →
      ((RMpost_transaction active q (some t)).1 = q ++ [t]) ∧
      ((RMpost_transaction active q (some t)).2.1 = []) ∧
      ((RMpost_transaction active q (some t)).2.2 = I2CError.None)) := by
  constructor
  · intro hq
    subst hq
    refine ⟨?_, rfl, rfl⟩
    have h := HWstart_transaction_queueIds active [t]
    simpa [RMpost_transaction, HWvalidate_transaction, queueIds] using h
  · intro hq
    match q, hq with
    | x :: rest, _ =>
      simp [RMpost_transaction, HWvalidate_transaction, appendTxn_eq_append]

/-- Witness for C5: posting to an empty idle queue and then posting a second
transaction behind it. -/
theorem post_transaction_queue_spec_witness :
    ((queueIds (RMpost_transaction false [] (some demoTxn)).1 = [demoTxn.id]) ∧
      ((RMpost_transaction false [] (some demoTxn)).2.1
          = .powerUp :: (HWstart_transaction false [demoTxn]).2.1) ∧
      ((RMpost_transaction false [] (some demoTxn)).2.2
          = (HWstart_transaction false [demoTxn]).2.2)) ∧
    (((RMpost_transaction false [demoTxn] (some pingTxn)).1
          = [demoTxn] ++ [pingTxn]) ∧
      ((RMpost_transaction false [demoTxn] (some pingTxn)).2.1 = []) ∧
      ((RMpost_transaction false [demoTxn] (some pingTxn)).2.2
          = I2CError.None)) :=
  ⟨(post_transaction_queue_spec false [] demoTxn).1 rfl,
   (post_transaction_queue_spec false [demoTxn] pingTxn).2 (by decide)⟩

theorem transfersOf_append (a b : List RMAction) :
    transfersOf (a ++ b) = transfersOf a ++ transfersOf b := by
  simp [transfersOf]

theorem schedulesOf_append (a b : List RMAction) :
    schedulesOf (a ++ b) = schedulesOf a ++ schedulesOf b := by
  simp [schedulesOf]

theorem call_irq_cb_trace (t : I2CTransaction) (e : Nat) :
    schedulesOf (t.call_irq_cb e) = [] ∧ transfersOf (t.call_irq_cb e) = [] := by
  unfold I2CTransaction.call_irq_cb
  split
  · exact ⟨rfl, rfl⟩
  · split <;> exact ⟨rfl, rfl⟩

theorem advance_segment_id (t : I2CTransaction) :
    (t.advance_segment).1.id = t.id := by
  unfold I2CTransaction.advance_segment
  split <;> rfl

theorem HWstart_transaction_schedules (a : Bool) (q : List I2CTransaction) :
    schedulesOf (HWstart_transaction a q).2.1 = [] := by
  unfold HWstart_transaction
  split
  · rfl
  · split
    · rfl
    · simp only []
      split <;> rfl

theorem schedulesOf_cons_schedule (t : I2CTransaction) (e : Nat)
    (as : List RMAction) :
    schedulesOf (.schedule t e :: as) = (t, e) :: schedulesOf as := by
  simp [schedulesOf]

theorem transfersOf_cons_schedule (t : I2CTransaction) (e : Nat)
    (as : List RMAction) :
    transfersOf (.schedule t e :: as) = transfersOf as := by
  simp [transfersOf]

theorem HWstart_segment_cons (t : I2CTransaction)
    (rest : List I2CTransaction) :
    HWstart_segment (t :: rest) =
      match t.curr with
      | [] => .error .NullSegment
      | s :: srest =>
        let stop := srest.isEmpty && !t.repeated
        if s.dir = I2CDirection.Transmit then
          .ok { txBuf := s.buffer.get_buf, txLen := s.buffer.get_len,
                rxBuf := .ext none, rxLen := 0, address := t.address,
                stop := stop, eventMask := I2C_EVENT_ALL, issuedFor := t.id }
        else
          .ok { txBuf := .ext none, txLen := 0,
                rxBuf := s.buffer.get_buf, rxLen := s.buffer.get_len,
                address := t.address, stop := stop,
                eventMask := I2C_EVENT_ALL, issuedFor := t.id } := rfl

theorem HWstart_segment_issuedFor (t : I2CTransaction)
    (rest : List I2CTransaction) (c : HalCall)
    (h : HWstart_segment (t :: rest) = .ok c) : c.issuedFor = t.id := by
  rw [HWstart_segment_cons] at h
  cases hc : t.curr with
  | nil =>
    rw [hc] at h
    cases h
  | cons s srest =>
    rw [hc] at h
    simp only [] at h
    by_cases hd : s.dir = I2CDirection.Transmit
    · rw [if_pos hd] at h
      cases h
      rfl
    · rw [if_neg hd] at h
      cases h
      rfl

theorem HWstart_transaction_transfers (a : Bool) (q : List I2CTransaction)
    (x : Nat) (hx : x ∈ transfersOf (HWstart_transaction a q).2.1) :
    x ∈ queueIds q := by
  unfold HWstart_transaction at hx
  split at hx
  · simp [transfersOf] at hx
  · split at hx
    · simp [transfersOf] at hx
    · rename_i t rest
      simp only [] at hx
      split at hx
      · rename_i c hc
        simp [transfersOf] at hx
        have h5 := HWstart_segment_issuedFor t.reset_current rest c hc
        subst hx
        simp [queueIds, h5, I2CTransaction.reset_current]
      · simp [transfersOf] at hx

theorem RMprocess_event_queueIds_sub (a : Bool) (q : List I2CTransaction)
    (e x : Nat) (hx : x ∈ queueIds (RMprocess_event a q e).queue) :
    x ∈ queueIds q := by
  unfold RMprocess_event at hx
  split at hx
  · exact hx
  · rename_i t rest
    simp only [] at hx
    split at hx
    · split at hx
      · simp [queueIds] at hx
      · rename_i y rest'
        rw [HWstart_transaction_queueIds] at hx
        simp only [queueIds, List.map_cons, List.mem_cons] at hx ⊢
        exact Or.inr hx
    · split at hx
      · split at hx <;>
          (simp only [queueIds, List.map_cons, List.mem_cons,
            advance_segment_id] at hx ⊢; exact hx)
      · simp only [queueIds, List.map_cons, List.mem_cons,
          advance_segment_id] at hx ⊢
        exact hx

theorem RMprocess_event_transfers_sub (a : Bool) (q : List I2CTransaction)
    (e x : Nat) (hx : x ∈ transfersOf (RMprocess_event a q e).actions) :
    x ∈ queueIds q := by
  unfold RMprocess_event at hx
  split at hx
  · simp [transfersOf] at hx
  · rename_i t rest
    simp only [] at hx
    split at hx
    · split at hx
      · rw [transfersOf_append, (call_irq_cb_trace t e).2] at hx
        simp [transfersOf] at hx
      · rename_i y rest'
        rw [transfersOf_append, (call_irq_cb_trace t e).2] at hx
        simp only [List.nil_append, transfersOf_cons_schedule] at hx
        have h4 := HWstart_transaction_transfers a (y :: rest') x hx
        simp only [queueIds, List.map_cons, List.mem_cons] at h4 ⊢
        exact Or.inr h4
    · split at hx
      · split at hx
        · rename_i c hc
          rw [transfersOf_append, (call_irq_cb_trace t e).2] at hx
          simp [transfersOf] at hx
          have h5 := HWstart_segment_issuedFor (t.advance_segment).1 rest c hc
          subst hx
          simp [queueIds, h5, advance_segment_id]
        · rw [(call_irq_cb_trace t e).2] at hx
          simp at hx
      · rw [(call_irq_cb_trace t e).2] at hx
        simp at hx

theorem RMrun_no_new_transfers (x : Nat) (steps : List (Bool × Nat)) :
    ∀ q : List I2CTransaction, x ∉ queueIds q →
      (x ∉ transfersOf (RMrun q steps).2) ∧ (x ∉ queueIds (RMrun q steps).1) := by
  induction steps with
  | nil =>
    intro q hq
    exact ⟨by simp [RMrun, transfersOf], by simpa [RMrun] using hq⟩
  | cons step rest ih =>
    intro q hq
    obtain ⟨a, e⟩ := step
    have h1 : x ∉ queueIds (RMprocess_event a q e).queue := fun hmem =>
      hq (RMprocess_event_queueIds_sub a q e x hmem)
    have h2 := ih (RMprocess_event a q e).queue h1
    constructor
    · intro hmem
      rw [RMrun] at hmem
      simp only [] at hmem
      rw [transfersOf_append] at hmem
      rcases List.mem_append.mp hmem with hl | hr
      · exact hq (RMprocess_event_transfers_sub a q e x hl)
      · exact h2.1 hr
    · intro hmem
      rw [RMrun] at hmem
      simp only [] at hmem
      exact h2.2 hmem

/-- Claim C4: when the delivered event bitset contains any error bit (error,
early-nack, no-slave), `process_event` pops the head transaction and
schedules exactly one task-level dispatch for it — even if the completion bit
is also set and even if segments remain — and no HAL transfer is ever issued
for that transaction again, neither in this step nor in any later sequence of
`process_event` steps (the popped identity being unique in the queue). -/
theorem process_event_error_dominates (active : Bool) (t : I2CTransaction)
    (rest : List I2CTransaction) (event : Nat)
    (herr : (event &&& I2C_ERROR_BITS) ≠ 0)
    (hid : t.id ∉ queueIds rest) :
    ((t.advance_segment).1.id = t.id) ∧
    (schedulesOf (RMprocess_event active (t :: rest) event).actions
        = [((t.advance_segment).1, event)]) ∧
    (queueIds (RMprocess_event active (t :: rest) event).queue
        = queueIds rest) ∧
    (t.id ∉ transfersOf (RMprocess_event active (t :: rest) event).actions) ∧
    (∀ steps, t.id ∉ transfersOf
        (RMrun (RMprocess_event active (t :: rest) event).queue steps).2) := by
  have hcond : (event &&& I2C_EVENT_ALL &&& UINT32_NOT_COMPLETE) ≠ 0 := by
    rw [event_land_not_complete]
    exact herr
  have hadv := advance_segment_id t
  cases rest with
  | nil =>
    have hpe : RMprocess_event active [t] event =
        { queue := []
          actions := t.call_irq_cb event ++
            [.schedule (t.advance_segment).1 event, .powerDown] } := by
      unfold RMprocess_event
      simp only []
      rw [if_pos (Or.inl hcond)]
    refine ⟨hadv, ?_, ?_, ?_, ?_⟩
    · rw [hpe, schedulesOf_append, (call_irq_cb_trace t event).1]
      rfl
    · rw [hpe]
    · rw [hpe, transfersOf_append, (call_irq_cb_trace t event).2]
      simp [transfersOf]
    · intro steps
      have hnot : t.id ∉ queueIds (RMprocess_event active [t] event).queue := by
        rw [hpe]
        simp [queueIds]
      exact (RMrun_no_new_transfers t.id steps _ hnot).1
  | cons y rest' =>
    have hpe : RMprocess_event active (t :: y :: rest') event =
        { queue := (HWstart_transaction active (y :: rest')).1
          actions := t.call_irq_cb event ++
            (.schedule (t.advance_segment).1 event ::
              (HWstart_transaction active (y :: rest')).2.1) } := by
      unfold RMprocess_event
      simp only []
      rw [if_pos (Or.inl hcond)]
    refine ⟨hadv, ?_, ?_, ?_, ?_⟩
    · rw [hpe, schedulesOf_append, (call_irq_cb_trace t event).1,
        List.nil_append, schedulesOf_cons_schedule, HWstart_transaction_schedules]
    · rw [hpe, HWstart_transaction_queueIds]
    · rw [hpe, transfersOf_append, (call_irq_cb_trace t event).2]
      intro hmem
      simp only [List.nil_append, transfersOf_cons_schedule] at hmem
      exact hid (HWstart_transaction_transfers active (y :: rest') t.id hmem)
    · intro steps
      have hnot : t.id ∉
          queueIds (RMprocess_event active (t :: y :: rest') event).queue := by
        rw [hpe, HWstart_transaction_queueIds]
        exact hid
      exact (RMrun_no_new_transfers t.id steps _ hnot).1

/-- A second queued transaction (id 7) for the C4 witness. -/
def pingTxn2 : I2CTransaction :=
  (I2CTransaction.mkNew 7 81 100000 false).append_segment demoSeg

/-- A transaction with two segments, used by the C4 witness. -/
def twoSegTxn : I2CTransaction :=
  ((I2CTransaction.mkNew 6 80 100000 false).append_segment
      demoSeg).append_segment demoSeg2

/-- The C4 witness transaction with the cursor reset to its first segment
(as after `start_transaction`), so a segment remains when the error hits. -/
def twoSegTxnStarted : I2CTransaction := twoSegTxn.reset_current

/-- Witness for C4: an early-nack arriving together with the completion bit,
while a segment remains and another transaction (id 7) waits behind. -/
theorem process_event_error_dominates_witness :
    (((twoSegTxnStarted.advance_segment).1.id = twoSegTxnStarted.id) ∧
      (schedulesOf (RMprocess_event false [twoSegTxnStarted, pingTxn2]
          (I2C_EVENT_TRANSFER_EARLY_NACK ||| I2C_EVENT_TRANSFER_COMPLETE)).actions
        = [((twoSegTxnStarted.advance_segment).1,
            I2C_EVENT_TRANSFER_EARLY_NACK ||| I2C_EVENT_TRANSFER_COMPLETE)]) ∧
      (queueIds (RMprocess_event false [twoSegTxnStarted, pingTxn2]
          (I2C_EVENT_TRANSFER_EARLY_NACK ||| I2C_EVENT_TRANSFER_COMPLETE)).queue
        = queueIds [pingTxn2]) ∧
      (twoSegTxnStarted.id ∉ transfersOf
        (RMprocess_event false [twoSegTxnStarted, pingTxn2]
          (I2C_EVENT_TRANSFER_EARLY_NACK ||| I2C_EVENT_TRANSFER_COMPLETE)).actions)) ∧
    (twoSegTxnStarted.id ∉ transfersOf
      (RMrun (RMprocess_event false [twoSegTxnStarted, pingTxn2]
          (I2C_EVENT_TRANSFER_EARLY_NACK ||| I2C_EVENT_TRANSFER_COMPLETE)).queue
        [(false, I2C_EVENT_TRANSFER_COMPLETE)]).2) :=
  have h := process_event_error_dominates false twoSegTxnStarted [pingTxn2]
    (I2C_EVENT_TRANSFER_EARLY_NACK ||| I2C_EVENT_TRANSFER_COMPLETE)
    (by decide) (by decide)
  ⟨⟨h.1, h.2.1, h.2.2.1, h.2.2.2.1⟩,
   h.2.2.2.2 [(false, I2C_EVENT_TRANSFER_COMPLETE)]⟩

end Mbed
